import Mathlib

/-!
Verification of the EVM interpreter core of `filecoin-project/canonical-actors`
(`actors/evm/src/interpreter/`): address encoding, jump dispatch,
RETURNDATACOPY bounds checking, the dispatch loop, and the `call_actor`
precompile.  Rust machine integers are modelled as `Nat` with explicit
`2^32` / `2^64` / `2^256` bounds where the source relies on a fixed width
(the actors compile to wasm32, so `usize` is 32 bits wide, matching the
"exceeds max u32" error messages in the source).
-/

/-- Big-endian byte serialization of a natural number into `k` bytes
(low byte last), mirroring `U256::to_big_endian` restricted to the value's
low `k` bytes. -/
def toBEBytes : Nat → Nat → List Nat
  | _, 0 => []
  | n, k + 1 => toBEBytes (n / 256) k ++ [n % 256]

/-- Big-endian byte deserialization, mirroring `U256::from(&[u8])`. -/
def beFromBytes (l : List Nat) : Nat :=
  l.foldl (fun acc b => acc * 256 + b) 0

/-- Interpreter status codes (the error kinds of the source's `StatusCode`
enum that the modelled components produce). -/
inductive StatusCode where
  | StackUnderflow
  | StackOverflow
  | BadJumpDestination
  | IllegalMemoryAccess
  | InvalidInstruction
  | UndefinedInstruction
  | BadAddress
  | StaticModeViolation
  | Failure
  deriving DecidableEq, Repr

/-- The host's Filecoin address type, used here only through its
`new_id` constructor (an external collaborator of the interpreter). -/
inductive FilecoinAddress where
  | new_id (id : Nat) : FilecoinAddress
  deriving DecidableEq, Repr

/-- A Filecoin address in EVM form: a 256-bit word
(`actors/evm/src/interpreter/address.rs`, `struct Address(U256)`). -/
structure Address where
  val : Nat
  deriving DecidableEq, Repr

/-- `impl TryFrom<U256> for Address`: the top 12 big-endian bytes of the word
must be zero, otherwise construction fails with `BadAddress`. -/
def Address.try_from (v : Nat) : Except StatusCode Address :=
  let bytes := toBEBytes v 32
  if ¬ ((bytes.take 12).all fun b => b = 0) then
    .error .BadAddress
  else
    .ok ⟨v⟩

/-- `Address::from_id`: builds the EVM-form ID address
`[0x00 × 12, 0xff, 0x00 × 11, id as 8 big-endian bytes]`. -/
def Address.from_id (id : Nat) : Address :=
  ⟨beFromBytes
    ([0, 0, 0, 0, 0, 0, 0, 0, 0, 0, 0, 0, 0xff, 0, 0, 0, 0, 0, 0, 0, 0, 0, 0, 0]
      ++ toBEBytes id 8)⟩

/-- `Address::as_id_address`: byte 12 must be the `0xff` marker and bytes
13..24 must be zero; the ID is decoded from the last 8 bytes. -/
def Address.as_id_address (a : Address) : Option FilecoinAddress :=
  let bytes := toBEBytes a.val 32
  if bytes.getD 12 0 ≠ 0xff ∨ ¬ (((bytes.drop 13).take 11).all fun b => b = 0) then
    none
  else
    some (.new_id (beFromBytes ((bytes.drop 24).take 8)))

/-- `Address::as_evm_word`. -/
def Address.as_evm_word (a : Address) : Nat := a.val

/-- `usize` conversion of a 256-bit word (`TryInto<usize>`): the actors are
compiled to wasm32, so the conversion succeeds exactly for values below
`2^32`.  Words are represented as `Nat`. -/
def tryIntoUsize (w : Nat) : Option Nat :=
  if w < 2 ^ 32 then some w else none

/-- Modelled from the spec: the bytecode container wraps the raw program
bytes; its valid-jump-destination scan is computed once at construction
(`interpreter/bytecode.rs` is not among the sources at hand, so the scan
below follows §4.2 of the spec: positions holding the `JUMPDEST` marker
`0x5b` are valid unless they fall inside the 1–32 byte immediate-operand
span of a preceding push instruction `0x60..=0x7f`). -/
structure Bytecode where
  code : List Nat
  deriving DecidableEq, Repr

/-- Modelled from the spec: the jump-destination scan.  `skip` counts the
remaining immediate-operand bytes of the most recent push instruction; a
byte is interpreted as an opcode only when `skip = 0`. -/
def jumpdestScan : List Nat → Nat → Nat → List Nat
  | [], _, _ => []
  | _ :: rest, pos, skip + 1 => jumpdestScan rest (pos + 1) skip
  | b :: rest, pos, 0 =>
    if b = 0x5b then
      pos :: jumpdestScan rest (pos + 1) 0
    else if 0x60 ≤ b ∧ b ≤ 0x7f then
      jumpdestScan rest (pos + 1) (b - 0x5f)
    else
      jumpdestScan rest (pos + 1) 0

/-- Modelled from the spec: `Bytecode::valid_jump_destination` — bounds
checked (a pc at or past the end of the code is invalid) membership in the
precomputed destination set. -/
def Bytecode.valid_jump_destination (b : Bytecode) (pc : Nat) : Bool :=
  decide (pc < b.code.length) && (jumpdestScan b.code 0 0).contains pc

def Bytecode.len (b : Bytecode) : Nat := b.code.length

/-- `jump` from `instructions/control.rs`: convert the destination word to
`usize` (failure is a `BadJumpDestination`), validate it, and land on the
byte after the marker. -/
def jump (bytecode : Bytecode) (dest : Nat) : Except StatusCode Nat :=
  match tryIntoUsize dest with
  | none => .error .BadJumpDestination
  | some dst =>
    if ¬ bytecode.valid_jump_destination dst then
      .error .BadJumpDestination
    else
      .ok (dst + 1)

/-- `jumpi` from `instructions/control.rs`: with a nonzero condition it
behaves like `jump`; with a zero condition the pc simply advances. -/
def jumpi (bytecode : Bytecode) (pc : Nat) (dest test : Nat) : Except StatusCode Nat :=
  if test ≠ 0 then
    match tryIntoUsize dest with
    | none => .error .BadJumpDestination
    | some dst =>
      if ¬ bytecode.valid_jump_destination dst then
        .error .BadJumpDestination
      else
        .ok (dst + 1)
  else
    .ok (pc + 1)

/-- The mutable per-call machine context relevant to the modelled opcodes:
the operand stack (top at the head, capacity 1024), byte-addressable memory,
the return data of the last sub-call, and the program counter.  The remaining
`ExecutionState` fields (input data, output data, self-destruct beneficiary,
caller/receiver) are not read or written by the instructions modelled here. -/
structure MachineState where
  stack : List Nat
  memory : List Nat
  returnData : List Nat
  pc : Nat
  deriving DecidableEq, Repr

/-- Result of one iteration of the dispatch loop body: `next` covers the
source's `ControlFlow::Continue` and `ControlFlow::Jump` (the handler's pc
update is already applied to the carried state), `exit` is
`ControlFlow::Exit`, and `fail` is an error return — carrying the state as
already mutated before the error, since handlers mutate in place. -/
inductive StepRes where
  | next (c : MachineState)
  | exit (c : MachineState)
  | fail (c : MachineState) (e : StatusCode)
  deriving DecidableEq, Repr

/-- One step of `Machine::execute` for the control-flow opcodes defined in
`execution.rs` (`STOP`, `JUMPDEST`, `JUMP`, `JUMPI`, `INVALID`), with the
operand pops performed by the dispatch glue before the handler runs (per
§4.5 of the spec; confirmed by the source's own tests, which observe the
popped stack after a failed `JUMP`).  `DUP1` is modelled from the spec
(§4.3: `peek`/`push` with 1024-slot capacity) to represent the
stack-growing instructions whose handler sources are not at hand; all
other opcode bytes map to the `UNDEFINED` handler, the jump table's
default. -/
def step (B : Bytecode) (c : MachineState) : StepRes :=
  let op := B.code.getD c.pc 0
  if op = 0x00 then
    .exit c
  else if op = 0x5b then
    .next { c with pc := c.pc + 1 }
  else if op = 0x56 then
    match c.stack with
    | [] => .fail c .StackUnderflow
    | d :: rest =>
      match jump B d with
      | .error e => .fail { c with stack := rest } e
      | .ok dst => .next { c with stack := rest, pc := dst }
  else if op = 0x57 then
    match c.stack with
    | [] => .fail c .StackUnderflow
    | [_] => .fail { c with stack := [] } .StackUnderflow
    | d :: t :: rest =>
      match jumpi B c.pc d t with
      | .error e => .fail { c with stack := rest } e
      | .ok dst => .next { c with stack := rest, pc := dst }
  else if op = 0x80 then
    match c.stack with
    | [] => .fail c .StackUnderflow
    | x :: s =>
      if 1024 ≤ (x :: s).length then
        .fail c .StackOverflow
      else
        .next { c with stack := x :: x :: s, pc := c.pc + 1 }
  else if op = 0xfe then
    .fail c .InvalidInstruction
  else
    .fail c .UndefinedInstruction

/-- The three ways the dispatch loop can end. -/
inductive Outcome where
  | halted (c : MachineState)
  | ended (c : MachineState)
  | failed (c : MachineState) (e : StatusCode)
  deriving DecidableEq, Repr

/-- The fetch–decode–execute loop of `Machine::execute`, with explicit fuel:
`none` means the loop is still running after `fuel` iterations.  The loop
breaks when the program counter reaches or passes the end of the code
(`ended`), when a handler requests `ControlFlow::Exit` (`halted`), or on the
first handler error (`failed`). -/
def run (B : Bytecode) : Nat → MachineState → Option Outcome
  | 0, _ => none
  | fuel + 1, c =>
    if B.code.length ≤ c.pc then
      some (.ended c)
    else
      match step B c with
      | .next c' => run B fuel c'
      | .exit c' => some (.halted c')
      | .fail c' e => some (.failed c' e)

/-- Termination of the dispatch loop from a given start state. -/
def Terminates (B : Bytecode) (c : MachineState) : Prop :=
  ∃ fuel o, run B fuel c = some o

/-- Reachability through non-halting loop iterations. -/
inductive Steps (B : Bytecode) : MachineState → MachineState → Prop where
  | refl (c : MachineState) : Steps B c c
  | head {c c' c'' : MachineState} :
      c.pc < B.code.length → step B c = .next c' → Steps B c' c'' → Steps B c c''

/-- A validated memory region descriptor `{offset, size}` (`size` nonzero by
construction of `get_memory_region`). -/
structure MemoryRegion where
  offset : Nat
  size : Nat
  deriving DecidableEq, Repr

/-- `checked_add` on `usize` (32 bits on wasm32). -/
def checkedAddUsize (a b : Nat) : Option Nat :=
  if a + b < 2 ^ 32 then some (a + b) else none

/-- Modelled from the spec: `Memory::get_memory_region`
(`interpreter/memory.rs` is not among the sources at hand; §3/§4.4 of the
spec): a zero length is a no-op returning no region; otherwise offset and
length must be `usize`-representable (else a fatal `IllegalMemoryAccess`),
memory is grown zero-filled to `offset + length` rounded up to a whole
32-byte word, and the region `{offset, size}` is returned. -/
def get_memory_region (mem : List Nat) (offset size : Nat) :
    Except StatusCode (List Nat × Option MemoryRegion) :=
  if size = 0 then
    .ok (mem, none)
  else
    match tryIntoUsize offset, tryIntoUsize size with
    | some o, some s =>
      let needed := 32 * ((o + s + 31) / 32)
      let grown :=
        if mem.length < needed then mem ++ List.replicate (needed - mem.length) 0 else mem
      .ok (grown, some ⟨o, s⟩)
    | _, _ => .error .IllegalMemoryAccess

/-- Writing a slice into memory at an offset
(`memory[off..off + src.length].copy_from_slice(src)`). -/
def listWrite (dst : List Nat) (off : Nat) (src : List Nat) : List Nat :=
  dst.take off ++ src ++ dst.drop (off + src.length)

/-- `returndatacopy` from `instructions/control.rs`: validate the
destination region, convert the source index (failure: fatal
`IllegalMemoryAccess`), check the start against the return-data length,
compute the checked end `src + region.size` (overflow: fatal), check it
against the return-data length, and only then copy. -/
def returndatacopy (st : MachineState) (mem_index input_index size : Nat) :
    Except StatusCode MachineState :=
  match get_memory_region st.memory mem_index size with
  | .error e => .error e
  | .ok (mem', region) =>
    match tryIntoUsize input_index with
    | none => .error .IllegalMemoryAccess
    | some src =>
      if st.returnData.length < src then
        .error .IllegalMemoryAccess
      else
        match checkedAddUsize src (match region with | some r => r.size | none => 0) with
        | none => .error .IllegalMemoryAccess
        | some e =>
          if st.returnData.length < e then
            .error .IllegalMemoryAccess
          else
            match region with
            | some r =>
              .ok { st with
                memory := listWrite mem' r.offset ((st.returnData.drop src).take r.size) }
            | none => .ok { st with memory := mem' }

/-- Modelled from the spec (§4.7): `read_right_pad` — read `n` bytes from a
slice, right-padding with zeros past the end (`precompiles/parameter.rs` is
not among the sources at hand). -/
def read_right_pad (input : List Nat) (n : Nat) : List Nat :=
  input.take n ++ List.replicate (n - input.length) 0

/-- Modelled from the spec (§4.7/§6): the `U256Reader` cursor — the `i`-th
sequential right-padded 32-byte big-endian word of a precompile input. -/
def word32At (input : List Nat) (i : Nat) : Nat :=
  beFromBytes (read_right_pad (input.drop (32 * i)) 32)

/-- `SendFlags::from_bits` of the external `fvm_shared` crate: a `u64`
bitfield whose only defined flag is `READ_ONLY = 1 << 0`; undefined bits
make decoding fail. -/
def sendFlagsFromBits (w : Nat) : Option Nat :=
  if w < 2 then some w else none

/-- `SendFlags::read_only`. -/
def sendFlagsReadOnly (f : Nat) : Bool := f.testBit 0

/-- The call kind of the current precompile invocation. -/
inductive CallKind where
  | Call
  | DelegateCall
  | StaticCall
  | CallCode
  deriving DecidableEq, Repr

/-- `PrecompileContext`: call kind, gas limit and read-only flag. -/
structure PrecompileContext where
  call_type : CallKind
  gas_limit : Nat
  is_readonly : Bool
  deriving DecidableEq, Repr

/-- `PrecompileError` variants exercised by `call_actor`. -/
inductive PrecompileError where
  | InvalidInput
  | CallForbidden
  | CallActorError (sc : StatusCode)
  deriving DecidableEq, Repr

/-- The host's Filecoin address as handed to `send_generalized`
(`Address::from_bytes` of the external `fvm_shared` crate is abstracted as
a caller-supplied partial parser retaining the raw bytes). -/
structure FilAddr where
  bytes : List Nat
  deriving DecidableEq, Repr

/-- The argument record of the host's generic cross-actor send. -/
structure SendArgs where
  address : FilAddr
  method : Nat
  params : List Nat
  value : Nat
  gas_limit : Nat
  flags : Nat
  deriving DecidableEq, Repr

/-- The "Build Output" section of `call_actor`: re-encode the host send
result as `[exit_code, codec, offset, size]` 32-byte words followed by the
unpadded payload.  On failure the exit-code word is
`U256::from(ae.exit_code().value())` — a `u32` value, hence the `% 2^32`. -/
def encodeActorResult (r : Except (Nat × List Nat) (List Nat)) : List Nat :=
  let ecData :=
    match r with
    | .error (code, d) => (code % 2 ^ 32, d)
    | .ok d => (0, d)
  toBEBytes ecData.1 32 ++ toBEBytes 0x71 32 ++ toBEBytes 128 32
    ++ toBEBytes (ecData.2.length % 2 ^ 32) 32 ++ ecData.2

/-- `call_actor` from `precompiles/fvm.rs`.  The host send
(`System::send_generalized`, outside the sources at hand) is a parameter
`send` returning either the callee's payload or an error carrying the
`u32` exit-code value of the `ActorError` plus its payload
(`ae.exit_code().value()` / `ae.take_data()`); the external Filecoin
address parser is the parameter `parseAddr`.  Input: six header words
(method, value, flags, codec, address size, payload size) then payload
and address bytes; output: built by `encodeActorResult`. -/
def call_actor (parseAddr : List Nat → Option FilAddr)
    (send : SendArgs → Except (Nat × List Nat) (List Nat))
    (ctx : PrecompileContext) (input : List Nat) :
    Except PrecompileError (List Nat) :=
  if ctx.call_type ≠ CallKind.DelegateCall then
    .error .CallForbidden
  else if ¬ word32At input 0 < 2 ^ 64 then
    .error .InvalidInput
  else
    let method := word32At input 0
    let value := word32At input 1
    if ¬ word32At input 2 < 2 ^ 64 then
      .error .InvalidInput
    else
      match sendFlagsFromBits (word32At input 2) with
      | none => .error .InvalidInput
      | some flags =>
        if sendFlagsReadOnly flags = false ∧ ctx.is_readonly = true then
          .error (.CallActorError .StaticModeViolation)
        else if ¬ word32At input 3 < 2 ^ 64 then
          .error .InvalidInput
        else if word32At input 3 ≠ 0x71 then
          .error .InvalidInput
        else if ¬ word32At input 4 < 2 ^ 32 then
          .error .InvalidInput
        else if ¬ word32At input 5 < 2 ^ 32 then
          .error .InvalidInput
        else
          let address_size := word32At input 4
          let send_data_size := word32At input 5
          let bytes := read_right_pad (input.drop 192) (send_data_size + address_size)
          let input_data := bytes.take send_data_size
          let addr_bytes := (bytes.drop send_data_size).take address_size
          match parseAddr addr_bytes with
          | none => .error .InvalidInput
          | some address =>
            .ok (encodeActorResult
              (send ⟨address, method, input_data, value, ctx.gas_limit, flags⟩))

/-- A concrete address parser for witnesses: wrap the raw bytes. -/
def caParseAddr : List Nat → Option FilAddr := fun bs => some ⟨bs⟩

/-- A concrete host send for the C5 witness: the callee returns `[0xAB]`. -/
def caSendOk : SendArgs → Except (Nat × List Nat) (List Nat) := fun _ => .ok [0xAB]

/-- A concrete `call_actor` input: method 0, value 0, flags 0, codec
`0x71`, address size 1, payload size 2, then payload `[1, 2]` and the
address byte `[3]`. -/
def caInput : List Nat :=
  List.replicate 96 0 ++ (List.replicate 31 0 ++ [0x71]) ++ (List.replicate 31 0 ++ [1])
    ++ (List.replicate 31 0 ++ [2]) ++ [1, 2, 3]

theorem toBEBytes_length : ∀ (k n : Nat), (toBEBytes n k).length = k := by
  intro k
  induction k with
  | zero => intro n; rfl
  | succ k ih => intro n; simp [toBEBytes, ih]

theorem toBEBytes_lt : ∀ (k n : Nat), ∀ b ∈ toBEBytes n k, b < 256 := by
  intro k
  induction k with
  | zero => intro n b hb; simp [toBEBytes] at hb
  | succ k ih =>
    intro n b hb
    simp only [toBEBytes, List.mem_append, List.mem_singleton] at hb
    rcases hb with hb | hb
    · exact ih _ b hb
    · subst hb; exact Nat.mod_lt _ (by omega)

theorem foldl_be_toBEBytes :
    ∀ (k n a : Nat),
      (toBEBytes n k).foldl (fun acc b => acc * 256 + b) a = a * 256 ^ k + n % 256 ^ k := by
  intro k
  induction k with
  | zero => intro n a; simp [toBEBytes, Nat.mod_one]
  | succ k ih =>
    intro n a
    have hsplit : n % 256 ^ (k + 1) = n % 256 + 256 * (n / 256 % 256 ^ k) := by
      have h : (256 : Nat) ^ (k + 1) = 256 * 256 ^ k := by ring
      rw [h, Nat.mod_mul]
    simp only [toBEBytes, List.foldl_append, List.foldl_cons, List.foldl_nil, ih]
    rw [hsplit]
    ring

theorem beFromBytes_toBEBytes (k n : Nat) :
    beFromBytes (toBEBytes n k) = n % 256 ^ k := by
  have h := foldl_be_toBEBytes k n 0
  simpa [beFromBytes] using h

/-- `toBEBytes` is a left inverse of `beFromBytes` on genuine byte lists. -/
theorem toBEBytes_beFromBytes :
    ∀ (l : List Nat), (∀ b ∈ l, b < 256) →
      toBEBytes (beFromBytes l) l.length = l := by
  intro l
  induction l using List.reverseRecOn with
  | nil => intro _; rfl
  | append_singleton l b ih =>
    intro hlt
    have hb : b < 256 := hlt b (by simp)
    have hl : ∀ x ∈ l, x < 256 := fun x hx => hlt x (by simp [hx])
    have hbe : beFromBytes (l ++ [b]) = beFromBytes l * 256 + b := by
      simp [beFromBytes, List.foldl_append]
    have hdiv : (beFromBytes l * 256 + b) / 256 = beFromBytes l := by
      omega
    have hmod : (beFromBytes l * 256 + b) % 256 = b := by
      omega
    simp [hbe, toBEBytes, hdiv, hmod, ih hl]

/-- Splitting big-endian serialization into high and low parts. -/
theorem toBEBytes_split :
    ∀ (k j n : Nat),
      toBEBytes n (j + k) = toBEBytes (n / 256 ^ k) j ++ toBEBytes (n % 256 ^ k) k := by
  intro k
  induction k with
  | zero => intro j n; simp [toBEBytes]
  | succ k ih =>
    intro j n
    have h1 : n / 256 / 256 ^ k = n / 256 ^ (k + 1) := by
      rw [Nat.div_div_eq_div_mul]
      congr 1
      ring
    have h2 : n / 256 % 256 ^ k = n % 256 ^ (k + 1) / 256 := by
      have h : (256 : Nat) ^ (k + 1) = 256 * 256 ^ k := by ring
      rw [h, Nat.mod_mul_right_div_self]
    have h3 : n % 256 ^ (k + 1) % 256 = n % 256 := by
      exact Nat.mod_mod_of_dvd n (dvd_pow_self 256 (Nat.succ_ne_zero k))
    have hjk : j + (k + 1) = (j + k) + 1 := by omega
    rw [hjk]
    show toBEBytes (n / 256) (j + k) ++ [n % 256] = _
    rw [ih j (n / 256), h1, h2]
    simp [toBEBytes, h3]

/-- A big-endian block is all zeros iff the encoded value vanishes modulo the
block's capacity. -/
theorem toBEBytes_all_zero :
    ∀ (k n : Nat), ((toBEBytes n k).all fun b => b = 0) = true ↔ n % 256 ^ k = 0 := by
  intro k
  induction k with
  | zero => intro n; simp [toBEBytes, Nat.mod_one]
  | succ k ih =>
    intro n
    have hsplit : n % 256 ^ (k + 1) = n % 256 + 256 * (n / 256 % 256 ^ k) := by
      have h : (256 : Nat) ^ (k + 1) = 256 * 256 ^ k := by ring
      rw [h, Nat.mod_mul]
    constructor
    · intro h
      simp only [toBEBytes, List.all_append, Bool.and_eq_true, List.all_cons,
        List.all_nil, decide_eq_true_eq] at h
      have h1 := (ih (n / 256)).1 h.1
      have h2 : n % 256 = 0 := by simpa using h.2
      omega
    · intro h
      have h2 : n % 256 = 0 := by omega
      have h1 : n / 256 % 256 ^ k = 0 := by omega
      simp only [toBEBytes, List.all_append, Bool.and_eq_true, List.all_cons,
        List.all_nil, decide_eq_true_eq]
      exact ⟨(ih (n / 256)).2 h1, by simpa using h2, trivial⟩

/-- C8: for every 64-bit native identifier `id`, `Address::from_id` encodes it
(total encoding by construction) and `Address::as_id_address` decodes it back:
`as_id_address (from_id id) = Some (ID address of id)`. -/
theorem address_id_roundtrip (id : Nat) (h : id < 2 ^ 64) :
    Address.as_id_address (Address.from_id id) = some (FilecoinAddress.new_id id) := by
  have hp : (256 : Nat) ^ 8 = 2 ^ 64 := by norm_num
  have htlen : (toBEBytes id 8).length = 8 := toBEBytes_length 8 id
  have hall :
      ∀ b ∈ ([0, 0, 0, 0, 0, 0, 0, 0, 0, 0, 0, 0, 0xff,
               0, 0, 0, 0, 0, 0, 0, 0, 0, 0, 0] ++ toBEBytes id 8), b < 256 := by
    intro b hb
    rcases List.mem_append.1 hb with hb | hb
    · simp only [List.mem_cons, List.not_mem_nil, or_false] at hb
      omega
    · exact toBEBytes_lt 8 id b hb
  have hlen :
      (([0, 0, 0, 0, 0, 0, 0, 0, 0, 0, 0, 0, 0xff,
         0, 0, 0, 0, 0, 0, 0, 0, 0, 0, 0] : List Nat) ++ toBEBytes id 8).length = 32 := by
    simp [htlen]
  have hkey := toBEBytes_beFromBytes _ hall
  rw [hlen] at hkey
  have hdrop :
      (([0, 0, 0, 0, 0, 0, 0, 0, 0, 0, 0, 0, 0xff,
         0, 0, 0, 0, 0, 0, 0, 0, 0, 0, 0] : List Nat) ++ toBEBytes id 8).drop 24
        = toBEBytes id 8 := by
    rw [List.drop_append_eq_append_drop]
    norm_num
  have htake : (toBEBytes id 8).take 8 = toBEBytes id 8 := by
    rw [← htlen]; exact List.take_length _
  have hid : beFromBytes (toBEBytes id 8) = id := by
    rw [beFromBytes_toBEBytes]
    exact Nat.mod_eq_of_lt (by omega)
  have hmarker :
      (([0, 0, 0, 0, 0, 0, 0, 0, 0, 0, 0, 0, 0xff,
         0, 0, 0, 0, 0, 0, 0, 0, 0, 0, 0] : List Nat) ++ toBEBytes id 8).getD 12 0
        = 0xff := by
    rw [List.getD_append _ _ _ _ (by norm_num)]
    rfl
  have hzeros :
      ((([0, 0, 0, 0, 0, 0, 0, 0, 0, 0, 0, 0, 0xff,
          0, 0, 0, 0, 0, 0, 0, 0, 0, 0, 0] : List Nat) ++ toBEBytes id 8).drop 13).take 11
        = List.replicate 11 0 := by
    rw [List.drop_append_eq_append_drop]
    norm_num
    rfl
  simp only [Address.as_id_address, Address.from_id, hkey, hmarker, hzeros, hdrop, htake, hid]
  norm_num

/-- Witness for C8 at `id = 1`. -/
theorem address_id_roundtrip_witness :
    1 < 2 ^ 64 ∧
      Address.as_id_address (Address.from_id 1) = some (FilecoinAddress.new_id 1) :=
  ⟨by norm_num, address_id_roundtrip 1 (by norm_num)⟩

/-- C9: constructing an `Address` from a 256-bit word `v` fails with
`BadAddress` iff at least one of the top 12 big-endian bytes of `v` is nonzero
(equivalently, iff `v ≥ 256^20`); otherwise it succeeds and the resulting
address's EVM word is `v` unchanged. -/
theorem address_try_from_top_bytes (v : Nat) (hv : v < 2 ^ 256) :
    ((((toBEBytes v 32).take 12).all fun b => b = 0) = true ↔ v < 256 ^ 20) ∧
    (Address.try_from v = Except.error StatusCode.BadAddress ↔
      ¬ ((((toBEBytes v 32).take 12).all fun b => b = 0) = true)) ∧
    (∀ a, Address.try_from v = Except.ok a → a.as_evm_word = v) := by
  have hsplit := toBEBytes_split 20 12 v
  norm_num at hsplit
  have hlen12 : (toBEBytes (v / 256 ^ 20) 12).length = 12 := toBEBytes_length _ _
  have htake : (toBEBytes v 32).take 12 = toBEBytes (v / 256 ^ 20) 12 := by
    rw [hsplit]
    exact hlen12 ▸ List.take_left _ _
  have hq : v / 256 ^ 20 < 256 ^ 12 := by
    rw [Nat.div_lt_iff_lt_mul (by positivity)]
    have h2 : (256 : Nat) ^ 12 * 256 ^ 20 = 2 ^ 256 := by norm_num
    omega
  have hchar : ((((toBEBytes v 32).take 12).all fun b => b = 0) = true) ↔ v < 256 ^ 20 := by
    rw [htake, toBEBytes_all_zero, Nat.mod_eq_of_lt hq]
    exact Nat.div_eq_zero_iff (by positivity)
  refine ⟨hchar, ?_, ?_⟩
  · by_cases hc : (((toBEBytes v 32).take 12).all fun b => b = 0) = true
    · simp [Address.try_from, hc]
    · simp [Address.try_from, hc]
  · intro a ha
    by_cases hc : (((toBEBytes v 32).take 12).all fun b => b = 0) = true
    · simp only [Address.try_from, hc, not_true, if_neg, ite_false, if_false] at ha
      have : a = ⟨v⟩ := by
        cases ha
        rfl
      simp [this, Address.as_evm_word]
    · simp [Address.try_from, hc] at ha

/-- Witness for C9 at `v = 2^200` (a word with a nonzero top byte). -/
theorem address_try_from_top_bytes_witness :
    2 ^ 200 < 2 ^ 256 ∧
      (((((toBEBytes (2 ^ 200) 32).take 12).all fun b => b = 0) = true ↔
          2 ^ 200 < 256 ^ 20) ∧
        (Address.try_from (2 ^ 200) = Except.error StatusCode.BadAddress ↔
          ¬ ((((toBEBytes (2 ^ 200) 32).take 12).all fun b => b = 0) = true)) ∧
        (∀ a, Address.try_from (2 ^ 200) = Except.ok a → a.as_evm_word = 2 ^ 200)) :=
  ⟨by norm_num, address_try_from_top_bytes (2 ^ 200) (by norm_num)⟩

theorem jump_bad (B : Bytecode) (d : Nat)
    (hbad : 2 ^ 32 ≤ d ∨ B.valid_jump_destination d = false) :
    jump B d = .error .BadJumpDestination := by
  unfold jump tryIntoUsize
  rcases hbad with hge | hval
  · rw [if_neg (show ¬ d < 2 ^ 32 by omega)]
  · by_cases hd : d < 2 ^ 32
    · rw [if_pos hd]
      simp [hval]
    · rw [if_neg hd]

theorem jump_good (B : Bytecode) (d : Nat)
    (hlen : B.code.length ≤ 2 ^ 32)
    (hval : B.valid_jump_destination d = true) :
    jump B d = .ok (d + 1) := by
  have hd : d < 2 ^ 32 := by
    unfold Bytecode.valid_jump_destination at hval
    rw [Bool.and_eq_true, decide_eq_true_eq] at hval
    obtain ⟨h1, h2⟩ := hval
    omega
  unfold jump tryIntoUsize
  rw [if_pos hd]
  simp [hval]

/-- C1: if `JUMP` pops a destination `d` (resp. `JUMPI` pops `d` and a
nonzero condition) and `d` is not a valid jump destination — including any
`d` not representable in 32 bits — the step fails with a fatal
`BadJumpDestination` and the operands were already removed from the stack
(length down by exactly 1 for `JUMP`, exactly 2 for `JUMPI`). -/
theorem jump_invalid_dest_consumes_operands :
    (∀ (B : Bytecode) (c : MachineState) (d : Nat) (rest : List Nat),
      B.code.getD c.pc 0 = 0x56 →
      c.stack = d :: rest →
      (2 ^ 32 ≤ d ∨ B.valid_jump_destination d = false) →
      step B c = .fail { c with stack := rest } .BadJumpDestination) ∧
    (∀ (B : Bytecode) (c : MachineState) (d t : Nat) (rest : List Nat),
      B.code.getD c.pc 0 = 0x57 →
      c.stack = d :: t :: rest →
      t ≠ 0 →
      (2 ^ 32 ≤ d ∨ B.valid_jump_destination d = false) →
      step B c = .fail { c with stack := rest } .BadJumpDestination) := by
  constructor
  · intro B c d rest hop hstack hbad
    unfold step
    rw [hop, hstack]
    norm_num
    simp [jump_bad B d hbad]
  · intro B c d t rest hop hstack ht hbad
    unfold step
    rw [hop, hstack]
    norm_num
    have hji : jumpi B c.pc d t = .error .BadJumpDestination := by
      unfold jumpi
      rw [if_pos ht]
      have := jump_bad B d hbad
      unfold jump at this
      exact this
    simp [hji]

/-- Witness for C1: `JUMP` to the invalid destination 5 on a 1-byte program,
and `JUMPI` (condition 1) to the invalid destination 3. -/
theorem jump_invalid_dest_consumes_operands_witness :
    (Bytecode.mk [0x56]).code.getD 0 0 = 0x56 ∧
    Bytecode.valid_jump_destination ⟨[0x56]⟩ 5 = false ∧
    step ⟨[0x56]⟩ ⟨[5], [], [], 0⟩ = .fail ⟨[], [], [], 0⟩ .BadJumpDestination ∧
    step ⟨[0x57]⟩ ⟨[3, 1], [], [], 0⟩ = .fail ⟨[], [], [], 0⟩ .BadJumpDestination :=
  ⟨by decide, by decide,
    jump_invalid_dest_consumes_operands.1 ⟨[0x56]⟩ ⟨[5], [], [], 0⟩ 5 []
      (by decide) rfl (Or.inr (by decide)),
    jump_invalid_dest_consumes_operands.2 ⟨[0x57]⟩ ⟨[3, 1], [], [], 0⟩ 3 1 []
      (by decide) rfl (by decide) (Or.inr (by decide))⟩

/-- C2: `JUMP` to a valid destination `d` sets the program counter to `d + 1`
(skipping the marker) and shrinks the stack by exactly 1; a taken `JUMPI`
(nonzero condition) sets the program counter to `d + 1` and shrinks the stack
by exactly 2. -/
theorem jump_valid_dest_sets_pc :
    (∀ (B : Bytecode) (c : MachineState) (d : Nat) (rest : List Nat),
      B.code.length ≤ 2 ^ 32 →
      B.code.getD c.pc 0 = 0x56 →
      c.stack = d :: rest →
      B.valid_jump_destination d = true →
      step B c = .next { c with stack := rest, pc := d + 1 }) ∧
    (∀ (B : Bytecode) (c : MachineState) (d t : Nat) (rest : List Nat),
      B.code.length ≤ 2 ^ 32 →
      B.code.getD c.pc 0 = 0x57 →
      c.stack = d :: t :: rest →
      t ≠ 0 →
      B.valid_jump_destination d = true →
      step B c = .next { c with stack := rest, pc := d + 1 }) := by
  constructor
  · intro B c d rest hlen hop hstack hval
    unfold step
    rw [hop, hstack]
    norm_num
    simp [jump_good B d hlen hval]
  · intro B c d t rest hlen hop hstack ht hval
    unfold step
    rw [hop, hstack]
    norm_num
    have hji : jumpi B c.pc d t = .ok (d + 1) := by
      unfold jumpi
      rw [if_pos ht]
      have := jump_good B d hlen hval
      unfold jump at this
      exact this
    simp [hji]

/-- Witness for C2: program `[JUMP, JUMPDEST]` with stack `[1]`, and
`[JUMPI, JUMPDEST]` with stack `[1, 7]`. -/
theorem jump_valid_dest_sets_pc_witness :
    Bytecode.valid_jump_destination ⟨[0x56, 0x5b]⟩ 1 = true ∧
    step ⟨[0x56, 0x5b]⟩ ⟨[1], [], [], 0⟩ = .next ⟨[], [], [], 2⟩ ∧
    step ⟨[0x57, 0x5b]⟩ ⟨[1, 7], [], [], 0⟩ = .next ⟨[], [], [], 2⟩ :=
  ⟨by decide,
    jump_valid_dest_sets_pc.1 ⟨[0x56, 0x5b]⟩ ⟨[1], [], [], 0⟩ 1 []
      (by decide) (by decide) rfl (by decide),
    jump_valid_dest_sets_pc.2 ⟨[0x57, 0x5b]⟩ ⟨[1, 7], [], [], 0⟩ 1 7 []
      (by decide) (by decide) rfl (by decide) (by decide)⟩

theorem loop_runs_forever :
    ∀ n, run ⟨[0x5b, 0x80, 0x56]⟩ n ⟨[0], [], [], 1⟩ = none ∧
      run ⟨[0x5b, 0x80, 0x56]⟩ n ⟨[0, 0], [], [], 2⟩ = none := by
  intro n
  induction n with
  | zero => exact ⟨rfl, rfl⟩
  | succ n ih =>
    constructor
    · unfold run
      rw [if_neg (by decide)]
      have hs : step ⟨[0x5b, 0x80, 0x56]⟩ ⟨[0], [], [], 1⟩ = .next ⟨[0, 0], [], [], 2⟩ := by
        decide
      rw [hs]
      exact ih.2
    · unfold run
      rw [if_neg (by decide)]
      have hs : step ⟨[0x5b, 0x80, 0x56]⟩ ⟨[0, 0], [], [], 2⟩ = .next ⟨[0], [], [], 1⟩ := by
        decide
      rw [hs]
      exact ih.1

/-- C4 counterexample: the dispatch loop does NOT terminate for every
bytecode and initial state.  On the program `[JUMPDEST, DUP1, JUMP]` started
with stack `[0]`, each round duplicates the zero and jumps back to position
0, so no amount of fuel makes `execute` finish (gas exhaustion is enforced
by the host outside this core). -/
theorem execute_loops_forever :
    ¬ Terminates ⟨[0x5b, 0x80, 0x56]⟩ ⟨[0], [], [], 0⟩ := by
  rintro ⟨fuel, o, h⟩
  cases fuel with
  | zero => exact Option.noConfusion h
  | succ n =>
    unfold run at h
    rw [if_neg (by decide)] at h
    have hs : step ⟨[0x5b, 0x80, 0x56]⟩ ⟨[0], [], [], 0⟩ = .next ⟨[0], [], [], 1⟩ := by
      decide
    rw [hs] at h
    have h2 : run ⟨[0x5b, 0x80, 0x56]⟩ n ⟨[0], [], [], 1⟩ = some o := h
    rw [(loop_runs_forever n).1] at h2
    exact Option.noConfusion h2

/-- C4 (amended): whenever the dispatch loop does terminate, it terminates
in exactly one of three ways: the program counter reached or passed the end
of the code, a handler requested an explicit halt (`ControlFlow::Exit`), or
a handler returned the first error — reached from the start state through a
chain of ordinary continuing steps. -/
theorem execute_halt_characterization :
    ∀ (B : Bytecode) (fuel : Nat) (c : MachineState) (o : Outcome),
      run B fuel c = some o →
      ∃ ck, Steps B c ck ∧
        ((B.code.length ≤ ck.pc ∧ o = .ended ck) ∨
         (ck.pc < B.code.length ∧ ∃ ce, step B ck = .exit ce ∧ o = .halted ce) ∨
         (ck.pc < B.code.length ∧ ∃ ce e, step B ck = .fail ce e ∧ o = .failed ce e)) := by
  intro B fuel
  induction fuel with
  | zero => intro c o h; exact Option.noConfusion h
  | succ n ih =>
    intro c o h
    unfold run at h
    by_cases hpc : B.code.length ≤ c.pc
    · rw [if_pos hpc] at h
      refine ⟨c, Steps.refl c, Or.inl ⟨hpc, ?_⟩⟩
      injection h with h
      exact h.symm
    · rw [if_neg hpc] at h
      push_neg at hpc
      cases hstep : step B c with
      | next c' =>
        rw [hstep] at h
        obtain ⟨ck, hsteps, hor⟩ := ih c' o h
        exact ⟨ck, Steps.head hpc hstep hsteps, hor⟩
      | exit ce =>
        rw [hstep] at h
        refine ⟨c, Steps.refl c, Or.inr (Or.inl ⟨hpc, ce, hstep, ?_⟩)⟩
        injection h with h
        exact h.symm
      | fail ce e =>
        rw [hstep] at h
        refine ⟨c, Steps.refl c, Or.inr (Or.inr ⟨hpc, ce, e, hstep, ?_⟩)⟩
        injection h with h
        exact h.symm

/-- Witness for the amended C4 at the one-instruction program `[STOP]`. -/
theorem execute_halt_characterization_witness :
    run ⟨[0x00]⟩ 1 ⟨[], [], [], 0⟩ = some (.halted ⟨[], [], [], 0⟩) ∧
    ∃ ck, Steps ⟨[0x00]⟩ ⟨[], [], [], 0⟩ ck ∧
      (((Bytecode.mk [0x00]).code.length ≤ ck.pc ∧
          Outcome.halted ⟨[], [], [], 0⟩ = .ended ck) ∨
       (ck.pc < (Bytecode.mk [0x00]).code.length ∧
          ∃ ce, step ⟨[0x00]⟩ ck = .exit ce ∧
            Outcome.halted ⟨[], [], [], 0⟩ = .halted ce) ∨
       (ck.pc < (Bytecode.mk [0x00]).code.length ∧
          ∃ ce e, step ⟨[0x00]⟩ ck = .fail ce e ∧
            Outcome.halted ⟨[], [], [], 0⟩ = .failed ce e)) :=
  ⟨rfl,
    execute_halt_characterization ⟨[0x00]⟩ 1 ⟨[], [], [], 0⟩
      (.halted ⟨[], [], [], 0⟩) rfl⟩

theorem tryIntoUsize_lt {w : Nat} (h : w < 2 ^ 32) : tryIntoUsize w = some w := by
  unfold tryIntoUsize
  exact if_pos h

theorem tryIntoUsize_ge {w : Nat} (h : ¬ w < 2 ^ 32) : tryIntoUsize w = none := by
  unfold tryIntoUsize
  exact if_neg h

theorem checkedAddUsize_lt {a b : Nat} (h : a + b < 2 ^ 32) :
    checkedAddUsize a b = some (a + b) := by
  unfold checkedAddUsize
  exact if_pos h

theorem checkedAddUsize_ge {a b : Nat} (h : ¬ a + b < 2 ^ 32) :
    checkedAddUsize a b = none := by
  unfold checkedAddUsize
  exact if_neg h

theorem get_memory_region_zero (mem : List Nat) (offset : Nat) :
    get_memory_region mem offset 0 = .ok (mem, none) := rfl

theorem get_memory_region_some (mem : List Nat) {offset size : Nat}
    (hsz : size ≠ 0) (ho : offset < 2 ^ 32) (hs : size < 2 ^ 32) :
    ∃ mem', get_memory_region mem offset size = .ok (mem', some ⟨offset, size⟩) := by
  unfold get_memory_region
  rw [if_neg hsz, tryIntoUsize_lt ho, tryIntoUsize_lt hs]
  exact ⟨_, rfl⟩

theorem get_memory_region_err (mem : List Nat) {offset size : Nat}
    (hsz : size ≠ 0) (h : ¬ offset < 2 ^ 32 ∨ ¬ size < 2 ^ 32) :
    get_memory_region mem offset size = .error .IllegalMemoryAccess := by
  unfold get_memory_region
  rw [if_neg hsz]
  rcases h with ho | hs
  · rw [tryIntoUsize_ge ho]
  · rw [tryIntoUsize_ge hs]
    rcases tryIntoUsize offset with _ | _ <;> rfl

/-- C3: `RETURNDATACOPY(mem_index, input_index, size)` fails with a fatal
`IllegalMemoryAccess` whenever `input_index + size` exceeds the current
return-data length — including `size = 0` with `input_index` alone out of
bounds, and all 32-bit-overflow cases (the arithmetic below is exact, so
overflowing values simply make the sum exceed the length) — and the copy
executes only when the whole source range lies within the return data. -/
theorem returndatacopy_bounds_check :
    ∀ (st : MachineState) (mem_index input_index size : Nat),
      (st.returnData.length < input_index + size →
        returndatacopy st mem_index input_index size = .error .IllegalMemoryAccess) ∧
      (∀ st', returndatacopy st mem_index input_index size = .ok st' →
        input_index + size ≤ st.returnData.length) := by
  intro st mem_index input_index size
  constructor
  · intro hover
    by_cases hsz : size = 0
    · subst hsz
      have hstart : st.returnData.length < input_index := by omega
      by_cases hin : input_index < 2 ^ 32
      · simp only [returndatacopy, get_memory_region_zero, tryIntoUsize_lt hin]
        rw [if_pos hstart]
      · simp only [returndatacopy, get_memory_region_zero, tryIntoUsize_ge hin]
    · by_cases hmi : mem_index < 2 ^ 32
      · by_cases hs : size < 2 ^ 32
        · obtain ⟨m', hg⟩ := get_memory_region_some st.memory hsz hmi hs
          by_cases hin : input_index < 2 ^ 32
          · simp only [returndatacopy, hg, tryIntoUsize_lt hin]
            by_cases hstart : st.returnData.length < input_index
            · rw [if_pos hstart]
            · rw [if_neg hstart]
              by_cases hadd : input_index + size < 2 ^ 32
              · simp only [checkedAddUsize_lt hadd]
                rw [if_pos (show st.returnData.length < input_index + size by omega)]
              · simp only [checkedAddUsize_ge hadd]
          · simp only [returndatacopy, hg, tryIntoUsize_ge hin]
        · simp only [returndatacopy, get_memory_region_err st.memory hsz (Or.inr hs)]
      · simp only [returndatacopy, get_memory_region_err st.memory hsz (Or.inl hmi)]
  · intro st' hok
    by_cases hsz : size = 0
    · subst hsz
      by_cases hin : input_index < 2 ^ 32
      · simp only [returndatacopy, get_memory_region_zero, tryIntoUsize_lt hin] at hok
        by_cases hstart : st.returnData.length < input_index
        · rw [if_pos hstart] at hok
          exact absurd hok (by simp)
        · omega
      · simp only [returndatacopy, get_memory_region_zero, tryIntoUsize_ge hin] at hok
        exact absurd hok (by simp)
    · by_cases hmi : mem_index < 2 ^ 32
      · by_cases hs : size < 2 ^ 32
        · obtain ⟨m', hg⟩ := get_memory_region_some st.memory hsz hmi hs
          by_cases hin : input_index < 2 ^ 32
          · simp only [returndatacopy, hg, tryIntoUsize_lt hin] at hok
            by_cases hstart : st.returnData.length < input_index
            · rw [if_pos hstart] at hok
              exact absurd hok (by simp)
            · rw [if_neg hstart] at hok
              by_cases hadd : input_index + size < 2 ^ 32
              · simp only [checkedAddUsize_lt hadd] at hok
                by_cases hend : st.returnData.length < input_index + size
                · rw [if_pos hend] at hok
                  exact absurd hok (by simp)
                · omega
              · simp only [checkedAddUsize_ge hadd] at hok
                exact absurd hok (by simp)
          · simp only [returndatacopy, hg, tryIntoUsize_ge hin] at hok
            exact absurd hok (by simp)
        · simp only [returndatacopy,
            get_memory_region_err st.memory hsz (Or.inr hs)] at hok
          exact absurd hok (by simp)
      · simp only [returndatacopy,
          get_memory_region_err st.memory hsz (Or.inl hmi)] at hok
        exact absurd hok (by simp)

/-- Witness for C3: return data of length 3, `input_index = 5`, `size = 0`. -/
theorem returndatacopy_bounds_check_witness :
    (MachineState.mk [] [] [0, 0, 0] 0).returnData.length < 5 + 0 ∧
    returndatacopy ⟨[], [], [0, 0, 0], 0⟩ 7 5 0 = .error .IllegalMemoryAccess :=
  ⟨by decide, (returndatacopy_bounds_check ⟨[], [], [0, 0, 0], 0⟩ 7 5 0).1 (by decide)⟩

/-- C7: a `call_actor` invocation under a read-only call context whose
decoded send flags do not set the read-only bit fails with the
`StaticModeViolation`-class error, whatever the host send and address
parser do — so the host cross-actor send is never consulted. -/
theorem call_actor_readonly_rejects
    (ctx : PrecompileContext) (input : List Nat) (flags : Nat)
    (hct : ctx.call_type = CallKind.DelegateCall)
    (hro : ctx.is_readonly = true)
    (h0 : word32At input 0 < 2 ^ 64)
    (h2 : word32At input 2 < 2 ^ 64)
    (hf : sendFlagsFromBits (word32At input 2) = some flags)
    (hnro : sendFlagsReadOnly flags = false) :
    ∀ (parseAddr : List Nat → Option FilAddr)
      (send : SendArgs → Except (Nat × List Nat) (List Nat)),
      call_actor parseAddr send ctx input =
        .error (.CallActorError .StaticModeViolation) := by
  intro parseAddr send
  simp only [call_actor, hct, hro, h0, h2, hf, hnro, ne_eq, not_true, not_true_eq_false,
    not_false_eq_true, eq_self_iff_true, and_true, true_and, and_self, ite_true, ite_false,
    if_true, if_false]

/-- Witness for C7: empty input (all-zero words) under a read-only
delegate-call context. -/
theorem call_actor_readonly_rejects_witness :
    word32At [] 0 < 2 ^ 64 ∧
    sendFlagsFromBits (word32At [] 2) = some 0 ∧
    sendFlagsReadOnly 0 = false ∧
    call_actor (fun _ => none) (fun _ => .ok []) ⟨CallKind.DelegateCall, 0, true⟩ [] =
      .error (.CallActorError .StaticModeViolation) :=
  ⟨by decide, by decide, by decide,
    call_actor_readonly_rejects ⟨CallKind.DelegateCall, 0, true⟩ [] 0 rfl rfl
      (by decide) (by decide) (by decide) (by decide) (fun _ => none) (fun _ => .ok [])⟩

/-- C5: every accepted `call_actor` input produces exactly four leading
32-byte big-endian words — exit code, codec, offset, size — followed by the
raw payload with no padding; the offset word is always `128 = 4 * 32` and
the size word is the payload length.  (The host runs on wasm32, so real
payload lengths are below `2^32`; that bound is the `herr`/`hret`
hypothesis on the host send.) -/
theorem call_actor_output_layout
    (parseAddr : List Nat → Option FilAddr)
    (send : SendArgs → Except (Nat × List Nat) (List Nat))
    (ctx : PrecompileContext) (input : List Nat) (out : List Nat)
    (herr : ∀ a code d, send a = Except.error (code, d) → d.length < 2 ^ 32)
    (hret : ∀ a d, send a = Except.ok d → d.length < 2 ^ 32)
    (hok : call_actor parseAddr send ctx input = .ok out) :
    ∃ ec payload, ec < 2 ^ 32 ∧
      out = toBEBytes ec 32 ++ toBEBytes 0x71 32 ++ toBEBytes 128 32
        ++ toBEBytes payload.length 32 ++ payload ∧
      ∃ a, (send a = .ok payload ∧ ec = 0) ∨
        ∃ code, send a = .error (code, payload) ∧ ec = code % 2 ^ 32 := by
  simp only [call_actor, encodeActorResult] at hok
  repeat' split at hok
  any_goals exact Except.noConfusion hok
  · rename_i code d hsend
    have hlen := herr _ _ _ hsend
    injection hok with hout
    subst hout
    refine ⟨code % 2 ^ 32, d, Nat.mod_lt code (by norm_num), ?_,
      ⟨_, Or.inr ⟨code, hsend, rfl⟩⟩⟩
    simp [Nat.mod_eq_of_lt hlen]
    have hm : d.length % 4294967296 = d.length := by omega
    rw [hm]
  · rename_i d hsend
    have hlen := hret _ _ hsend
    injection hok with hout
    subst hout
    refine ⟨0, d, by norm_num, ?_, ⟨_, Or.inl ⟨hsend, rfl⟩⟩⟩
    simp [Nat.mod_eq_of_lt hlen]
    have hm : d.length % 4294967296 = d.length := by omega
    rw [hm]

set_option maxRecDepth 4096 in
/-- Witness for C5 at the concrete input `caInput`. -/
theorem call_actor_output_layout_witness :
    call_actor caParseAddr caSendOk ⟨CallKind.DelegateCall, 0, false⟩ caInput =
      Except.ok (toBEBytes 0 32 ++ toBEBytes 0x71 32 ++ toBEBytes 128 32
        ++ toBEBytes 1 32 ++ [0xAB]) ∧
    ∃ ec payload, ec < 2 ^ 32 ∧
      toBEBytes 0 32 ++ toBEBytes 0x71 32 ++ toBEBytes 128 32
          ++ toBEBytes 1 32 ++ [0xAB] =
        toBEBytes ec 32 ++ toBEBytes 0x71 32 ++ toBEBytes 128 32
          ++ toBEBytes payload.length 32 ++ payload ∧
      ∃ a, (caSendOk a = .ok payload ∧ ec = 0) ∨
        ∃ code, caSendOk a = .error (code, payload) ∧ ec = code % 2 ^ 32 :=
  ⟨by rfl,
    call_actor_output_layout caParseAddr caSendOk ⟨CallKind.DelegateCall, 0, false⟩
      caInput
      (toBEBytes 0 32 ++ toBEBytes 0x71 32 ++ toBEBytes 128 32
        ++ toBEBytes 1 32 ++ [0xAB])
      (by intro a code d h; simp [caSendOk] at h)
      (by intro a d h
          have h2 : [0xAB] = d := by simpa [caSendOk] using h
          rw [← h2]
          decide)
      (by rfl)⟩

set_option maxRecDepth 4096 in
/-- C6 evaluated at a failing input: when the host send fails with the
system-level exit code 6 (`SYS_INSUFFICIENT_FUNDS`), `call_actor` encodes
the exit-code word as the plain `u32` value 6 — whose two's-complement sign
bit is clear (`6 < 2^255`), i.e. a non-negative word, contradicting the
documented "negative values are system errors" convention. -/
theorem call_actor_system_error_word_nonnegative :
    call_actor caParseAddr (fun _ => Except.error (6, []))
        ⟨CallKind.DelegateCall, 0, false⟩ caInput =
      Except.ok (toBEBytes 6 32 ++ toBEBytes 0x71 32 ++ toBEBytes 128 32
        ++ toBEBytes 0 32 ++ []) ∧
    beFromBytes ((toBEBytes 6 32 ++ toBEBytes 0x71 32 ++ toBEBytes 128 32
        ++ toBEBytes 0 32 ++ []).take 32) = 6 ∧
    6 < 2 ^ 255 :=
  ⟨by rfl, by decide, by norm_num⟩

/-- C10: after the six 32-byte header words (method, value, flags, codec,
address size, payload size), the trailing `call_actor` input bytes are laid
out payload first, then address: within the trailing region right-padded
with zeros to `payload-size + address-size` bytes, the payload handed to
the host send is the first payload-size bytes and the target address the
next address-size bytes. -/
theorem call_actor_input_tail_layout
    (parseAddr : List Nat → Option FilAddr)
    (send : SendArgs → Except (Nat × List Nat) (List Nat))
    (ctx : PrecompileContext) (input : List Nat) (flags : Nat)
    (hct : ctx.call_type = CallKind.DelegateCall)
    (h0 : word32At input 0 < 2 ^ 64)
    (h2 : word32At input 2 < 2 ^ 64)
    (hf : sendFlagsFromBits (word32At input 2) = some flags)
    (hsv : ¬ (sendFlagsReadOnly flags = false ∧ ctx.is_readonly = true))
    (h3 : word32At input 3 = 0x71)
    (h4 : word32At input 4 < 2 ^ 32)
    (h5 : word32At input 5 < 2 ^ 32) :
    call_actor parseAddr send ctx input =
      match parseAddr
          (((read_right_pad (input.drop 192) (word32At input 5 + word32At input 4)).drop
              (word32At input 5)).take (word32At input 4)) with
      | none => .error .InvalidInput
      | some address =>
        .ok (encodeActorResult (send
          ⟨address, word32At input 0,
            (read_right_pad (input.drop 192) (word32At input 5 + word32At input 4)).take
              (word32At input 5),
            word32At input 1, ctx.gas_limit, flags⟩)) := by
  have h113 : (113 : Nat) < 2 ^ 64 := by norm_num
  simp only [call_actor, hct, h0, h2, hf, hsv, h3, h113, h4, h5, ne_eq, not_true,
    not_true_eq_false, not_false_eq_true, eq_self_iff_true, and_true, true_and, and_self,
    ite_true, ite_false, if_true, if_false]

set_option maxRecDepth 4096 in
/-- Witness for C10 at the concrete input `caInput`. -/
theorem call_actor_input_tail_layout_witness :
    sendFlagsFromBits (word32At caInput 2) = some 0 ∧
    word32At caInput 3 = 0x71 ∧
    (call_actor caParseAddr caSendOk ⟨CallKind.DelegateCall, 0, false⟩ caInput =
      match caParseAddr
          (((read_right_pad (caInput.drop 192)
                (word32At caInput 5 + word32At caInput 4)).drop
              (word32At caInput 5)).take (word32At caInput 4)) with
      | none => .error .InvalidInput
      | some address =>
        .ok (encodeActorResult (caSendOk
          ⟨address, word32At caInput 0,
            (read_right_pad (caInput.drop 192)
              (word32At caInput 5 + word32At caInput 4)).take (word32At caInput 5),
            word32At caInput 1, 0, 0⟩))) :=
  ⟨by decide, by decide,
    call_actor_input_tail_layout caParseAddr caSendOk ⟨CallKind.DelegateCall, 0, false⟩
      caInput 0 rfl (by decide) (by decide) (by decide) (by decide) (by decide)
      (by decide) (by decide)⟩
